import Mathlib

/-!
Verification of the financial-analyzer repository's chunking, semantic-search,
storage, routing and orchestration logic, as a shallow embedding in Lean 4.

Conventions used throughout:
- Python strings are modelled as `List Char` (at API boundaries `String`,
  immediately converted through `.data`); Python `str.lower` is per-character
  ASCII lowering, matching `Char.toLower` on the ASCII inputs of interest.
- Python `in` on strings is contiguous-substring containment
  (`List.isInfixOf`).
- Floating-point similarity values are modelled as rationals (every IEEE
  float is a rational; the claims proved about search are order-theoretic and
  do not depend on rounding), while the cosine-similarity arithmetic of
  `_cosine_similarity` is modelled over the reals, where square roots live.
- Database/session effects are modelled by explicit state passing; a
  persistence error is injected through an explicit failure-mode parameter,
  and `commit`/`rollback` act on a pending/committed split of the state.
-/

/-! ### Query router (src/agents/query_router.py) -/

/-- Per-character ASCII lowering, the model of Python `str.lower()` on the
ASCII queries considered here. -/
def pyLower (s : List Char) : List Char :=
  s.map Char.toLower

/-- Keyword list registered for the `document_analysis` agent
(src/agents/query_router.py lines 35-38). -/
def documentAnalysisKeywords : List String :=
  ["find", "search", "locate", "extract", "show", "display",
   "document", "report", "statement", "balance sheet", "income"]

/-- Keyword list registered for the `financial_metrics` agent
(src/agents/query_router.py lines 39-42).  Note that the keywords are stored
exactly as written, including the upper-case `ROA` and `ROE`. -/
def financialMetricsKeywords : List String :=
  ["calculate", "ratio", "metric", "ROA", "ROE", "liquidity",
   "profitability", "leverage", "debt", "equity", "margin"]

/-- Keyword list registered for the `trend_analysis` agent
(src/agents/query_router.py lines 43-46). -/
def trendAnalysisKeywords : List String :=
  ["trend", "growth", "change", "compare", "variance", "increase",
   "decrease", "over time", "YoY", "QoQ", "seasonal"]

/-- The `agent_capabilities` mapping, in Python dict insertion order
(src/agents/query_router.py lines 34-47). -/
def agent_capabilities : List (String × List String) :=
  [("document_analysis", documentAnalysisKeywords),
   ("financial_metrics", financialMetricsKeywords),
   ("trend_analysis", trendAnalysisKeywords)]

/-- Contiguous-substring containment on character lists, the model of
Python's `in` operator on strings. -/
def substringOf (needle : List Char) : List Char → Bool
  | [] => needle.isEmpty
  | c :: rest => needle.isPrefixOf (c :: rest) || substringOf needle rest

/-- Number of keywords of `kws` occurring as substrings of the (already
lowered) query `ql`; the keywords themselves are not lowered, exactly as in
`route_query` (line 121: `if keyword in query_lower`). -/
def keywordScore (ql : List Char) (kws : List String) : Nat :=
  (kws.filter (fun k => substringOf k.data ql)).length

/-- The per-agent scores dict of `route_query`, in dict insertion order
(src/agents/query_router.py lines 115-122). -/
def routeScores (query : String) : List (String × Nat) :=
  let ql := pyLower query.data
  agent_capabilities.map (fun p => (p.1, keywordScore ql p.2))

/-- Model of Python `max(scores, key=scores.get)` over a dict in insertion
order: the first entry whose value no later entry strictly exceeds. -/
def pyMaxFirst : List (String × Nat) → String × Nat
  | [] => ("", 0)
  | x :: xs => xs.foldl (fun b s => if s.2 > b.2 then s else b) x

/-- Shallow embedding of `QueryRouterAgent.route_query`
(src/agents/query_router.py lines 105-132): score each agent, take the first
maximal agent in dict order, and replace it by `document_analysis` when the
maximal score is zero. -/
def route_query (query : String) : String :=
  let scores := routeScores query
  let best := pyMaxFirst scores
  if best.2 = 0 then "document_analysis" else best.1

/-! ### Chunker (src/document_processor.py, `DocumentProcessor.chunk_text`) -/

/-- Characters stripped by Python `str.strip()`. -/
def isPySpace (c : Char) : Bool :=
  c == ' ' || c == '\t' || c == '\n' || c == '\r' || c == '\x0b' || c == '\x0c'

/-- Model of Python `str.strip()`: drop whitespace from both ends. -/
def pyStrip (l : List Char) : List Char :=
  ((l.dropWhile isPySpace).reverse.dropWhile isPySpace).reverse

/-- Worker for splitting on the two-character separator `"\n\n"`, scanning
left to right with an accumulator of the current (reversed) piece; models
Python `text.split("\n\n")`. -/
def splitParasGo (acc : List Char) : List Char → List (List Char)
  | [] => [acc.reverse]
  | [c] => [(c :: acc).reverse]
  | c1 :: c2 :: rest =>
    if c1 = '\n' ∧ c2 = '\n' then acc.reverse :: splitParasGo [] rest
    else splitParasGo (c1 :: acc) (c2 :: rest)

/-- Model of Python `text.split("\n\n")` (src/document_processor.py
line 245). -/
def splitParas (l : List Char) : List (List Char) :=
  splitParasGo [] l

/-- Model of the Python slice `s[-o:]`: the last `o` characters, and the
whole string when `o = 0` (since `s[-0:] = s[0:] = s` in Python). -/
def pyTakeLast (o : Nat) (l : List Char) : List Char :=
  if o = 0 then l else l.drop (l.length - o)

/-- The overlap text seeded into the next buffer at a chunk boundary
(src/document_processor.py lines 267-270):
`current_chunk[-overlap:] if len(current_chunk) > overlap else ""`. -/
def overlapText (o : Nat) (cur : List Char) : List Char :=
  if cur.length > o then pyTakeLast o cur else []

/-- One iteration of the paragraph-accumulation loop of `chunk_text`
(src/document_processor.py lines 253-278); the state is the pair
(chunks emitted so far, current buffer). -/
def chunkStep (cs o : Nat) (st : List (List Char) × List Char) (para : List Char) :
    List (List Char) × List Char :=
  if st.2 ≠ [] ∧ st.2.length + para.length + 2 > cs then
    let chunks := if pyStrip st.2 ≠ [] then st.1 ++ [pyStrip st.2] else st.1
    (chunks, overlapText o st.2 ++ para)
  else
    (st.1, if st.2 = [] then para else st.2 ++ ['\n', '\n'] ++ para)

/-- Fuel-driven fixed-size character slicing, modelling
`[text[i : i + chunk_size] for i in range(0, len(text), chunk_size)]`
(src/document_processor.py line 249); the fuel (initially the text length)
only guards termination for `cs = 0`, where the Python original raises. -/
def slicesGo : Nat → Nat → List Char → List (List Char)
  | _, _, [] => []
  | 0, _, _ => []
  | fuel + 1, cs, l => l.take cs :: slicesGo fuel cs (l.drop cs)

/-- Fixed-size character slices of width `cs`, the fallback paragraph list of
`chunk_text`. -/
def pySlices (cs : Nat) (l : List Char) : List (List Char) :=
  slicesGo l.length cs l

/-- Shallow embedding of `DocumentProcessor.chunk_text`
(src/document_processor.py lines 220-290), returning the list of emitted
chunk texts; the `chunk_index` of each emitted chunk is its position in this
list and `section_type` is the caller-supplied tag, so neither is modelled
separately. -/
def chunk_text (cs o : Nat) (text : List Char) : List (List Char) :=
  if pyStrip text = [] then []
  else
    let paras0 := (splitParas text).filter (fun p => !(pyStrip p).isEmpty)
    let paras := if paras0.isEmpty then pySlices cs text else paras0
    let st := paras.foldl (chunkStep cs o) ([], [])
    if pyStrip st.2 ≠ [] then st.1 ++ [pyStrip st.2] else st.1

/-! ### Data model (src/models.py) and embedding store (src/embedding_service.py) -/

/-- Row of the `chunks` table (src/models.py, class `Chunk`); the embedding
vector is a list of rationals (every IEEE float is rational) and is `none`
for a NULL embedding.  The `id` of freshly inserted rows is
database-assigned and modelled as 0. -/
structure DBChunk where
  id : Nat
  chunk_text : String
  report_id : Nat
  page_number : Option Nat
  section_type : String
  chunk_index : Nat
  embedding : Option (List ℚ)
  embedding_model : String
deriving DecidableEq

/-- Row of the `reports` table (src/models.py, class `Report`), restricted to
the fields read or written by `EmbeddingService`. -/
structure ReportRow where
  id : Nat
  filename : String
  processing_status : String
  chunks_created : Nat
  embedding_provider : Option String
  embedding_model : Option String
deriving DecidableEq

/-- Committed database state seen by `EmbeddingService`. -/
structure DB where
  chunks : List DBChunk
  reports : List ReportRow
deriving DecidableEq

/-- One element of the result list built by `semantic_search`
(src/embedding_service.py lines 111-121). -/
structure SearchResult where
  chunk_id : Nat
  text : String
  report_id : Nat
  report_filename : String
  page_number : Option Nat
  section_type : String
  similarity : ℚ
deriving DecidableEq

/-- Descending-similarity comparison used to model
`results.sort(key=lambda x: x["similarity"], reverse=True)`: Python's sort
is stable, and with `reverse=True` it orders by similarity descending while
keeping equal-similarity elements in their original order, which is exactly
stable insertion sort under this relation. -/
def simGE (a b : SearchResult) : Prop :=
  b.similarity ≤ a.similarity

instance : DecidableRel simGE :=
  fun a b => inferInstanceAs (Decidable (b.similarity ≤ a.similarity))

instance : IsTotal SearchResult simGE :=
  ⟨fun a b => le_total b.similarity a.similarity⟩

instance : IsTrans SearchResult simGE :=
  ⟨fun _ _ _ h1 h2 => le_trans h2 h1⟩

/-- The SQL join of `Chunk` with `Report` on `Chunk.report_id == Report.id`
(src/embedding_service.py lines 84-92), in chunk-storage order. -/
def joinRows (db : DB) : List (DBChunk × ReportRow) :=
  db.chunks.filterMap
    (fun c => (db.reports.find? (fun r => r.id == c.report_id)).map (fun r => (c, r)))

/-- The optional `report_ids` filter (src/embedding_service.py lines 95-96);
`if report_ids:` is Python truthiness, so both `None` and the empty list
leave the rows unfiltered. -/
def reportFilter (ids : Option (List Nat)) (rows : List (DBChunk × ReportRow)) :
    List (DBChunk × ReportRow) :=
  match ids with
  | none => rows
  | some l => if l.isEmpty then rows else rows.filter (fun cr => l.contains cr.1.report_id)

/-- The unsorted result list of `semantic_search`
(src/embedding_service.py lines 100-121): skip chunks with a NULL embedding,
score the rest with the similarity function, and keep those scoring at least
`similarity_threshold`.  The similarity computation
`self._cosine_similarity(query_vec, chunk_vec)` is abstracted into the
parameter `cosSim`, because its float arithmetic (a square root) has no
exact rational value; every property claimed of the search pipeline holds
for an arbitrary similarity function. -/
def semanticCandidates (cosSim : List ℚ → List ℚ → ℚ) (query_embedding : List ℚ)
    (db : DB) (report_ids : Option (List Nat)) (threshold : ℚ) : List SearchResult :=
  (reportFilter report_ids (joinRows db)).filterMap
    (fun cr =>
      match cr.1.embedding with
      | none => none
      | some emb =>
        let s := cosSim query_embedding emb
        if threshold ≤ s then
          some { chunk_id := cr.1.id, text := cr.1.chunk_text, report_id := cr.1.report_id,
                 report_filename := cr.2.filename, page_number := cr.1.page_number,
                 section_type := cr.1.section_type, similarity := s }
        else none)

/-- Shallow embedding of `EmbeddingService.semantic_search`
(src/embedding_service.py lines 69-134): filter by threshold, stable-sort by
similarity descending, truncate to `top_k`. -/
def semantic_search (cosSim : List ℚ → List ℚ → ℚ) (query_embedding : List ℚ)
    (db : DB) (top_k : Nat) (threshold : ℚ) (report_ids : Option (List Nat)) :
    List SearchResult :=
  (List.insertionSort simGE (semanticCandidates cosSim query_embedding db report_ids threshold)).take
    top_k

/-- The `chunks`-list element consumed by `store_embeddings`: the dict keys
`"text"` and `"chunk_index"` are read unconditionally, `"page_number"` and
`"section_type"` through `.get` (src/embedding_service.py lines 38-41). -/
structure StoreChunkInput where
  text : String
  chunk_index : Nat
  page_number : Option Nat
  section_type : Option String
deriving DecidableEq

/-- The `Chunk(...)` row constructed for one `(chunk_data, embedding)` pair
(src/embedding_service.py lines 36-44). -/
def mkChunkRow (report_id : Nat) (model : String) (p : StoreChunkInput × List ℚ) : DBChunk :=
  { id := 0, chunk_text := p.1.text, report_id := report_id,
    page_number := p.1.page_number, section_type := p.1.section_type.getD "text",
    chunk_index := p.1.chunk_index, embedding := some p.2, embedding_model := model }

/-- Injected persistence-error point for `store_embeddings`: no error, an
error raised by the first `session.commit()` (the chunk-insert batch,
line 48), or an error raised while committing the report update (the second
`session.commit()`, line 57). -/
inductive FailMode where
  | noFail
  | failFirstCommit
  | failSecondCommit
deriving DecidableEq

/-- The report-field update applied between the two commits
(src/embedding_service.py lines 51-57). -/
def updateReport (stored : Nat) (provider model : String) (rid : Nat) (r : ReportRow) :
    ReportRow :=
  if r.id = rid then
    { r with chunks_created := stored, embedding_provider := some provider,
             embedding_model := some model, processing_status := "indexed" }
  else r

/-- Shallow embedding of `EmbeddingService.store_embeddings`
(src/embedding_service.py lines 23-67).  `zip` silently truncates to the
shorter of `chunks`/`embeddings`.  The function performs TWO separate
`session.commit()` calls: one for the chunk-row batch and a later one for
the report update; the `except` handler rolls back only the transaction
open at the time of the error, so a failure at the second commit leaves the
first commit's rows durable.  The returned pair is (raised-or-returned
value, committed database state). -/
def store_embeddings (fm : FailMode) (db : DB) (report_id : Nat)
    (chunks : List StoreChunkInput) (embeddings : List (List ℚ))
    (provider model : String) : Except String Nat × DB :=
  if fm = FailMode.failFirstCommit then (Except.error "storage error", db)
  else
    match db.reports.find? (fun r => r.id == report_id) with
    | some _ =>
      if fm = FailMode.failSecondCommit then
        (Except.error "storage error",
         { db with chunks := db.chunks ++ (chunks.zip embeddings).map (mkChunkRow report_id model) })
      else
        (Except.ok ((chunks.zip embeddings).map (mkChunkRow report_id model)).length,
         { db with
           chunks := db.chunks ++ (chunks.zip embeddings).map (mkChunkRow report_id model),
           reports := db.reports.map
             (updateReport ((chunks.zip embeddings).map (mkChunkRow report_id model)).length
               provider model report_id) })
    | none =>
      (Except.ok ((chunks.zip embeddings).map (mkChunkRow report_id model)).length,
       { db with chunks := db.chunks ++ (chunks.zip embeddings).map (mkChunkRow report_id model) })

/-- Sample one-report database used by concrete witnesses. -/
def sampleReport : ReportRow :=
  { id := 1, filename := "r.pdf", processing_status := "processing",
    chunks_created := 0, embedding_provider := none, embedding_model := none }

/-- Sample stored chunk whose embedding is present. -/
def sampleChunk : DBChunk :=
  { id := 7, chunk_text := "revenue grew", report_id := 1, page_number := some 3,
    section_type := "text", chunk_index := 0, embedding := some [1, 0],
    embedding_model := "m" }

/-- Sample database with one indexed chunk. -/
def sampleDB : DB :=
  { chunks := [sampleChunk], reports := [sampleReport] }

/-- Sample empty database holding only the report row. -/
def emptyDB : DB :=
  { chunks := [], reports := [sampleReport] }

/-- The search result produced from `sampleChunk` under the constant-1
similarity function. -/
def sampleResult : SearchResult :=
  { chunk_id := 7, text := "revenue grew", report_id := 1, report_filename := "r.pdf",
    page_number := some 3, section_type := "text", similarity := 1 }

/-! ### Cosine similarity over the reals (src/embedding_service.py,
`EmbeddingService._cosine_similarity`) -/

/-- Model of `np.dot(vec1, vec2)` on 1-D arrays: the sum of pointwise
products. -/
def dotList (v1 v2 : List ℝ) : ℝ :=
  (List.zipWith (fun a b => a * b) v1 v2).sum

/-- Sum of squares of the entries, the radicand of `np.linalg.norm`. -/
def sumSq (v : List ℝ) : ℝ :=
  (v.map (fun x => x ^ 2)).sum

/-- Model of `np.linalg.norm(v)`: the Euclidean norm. -/
noncomputable def normList (v : List ℝ) : ℝ :=
  Real.sqrt (sumSq v)

open Classical in
/-- Shallow embedding of `EmbeddingService._cosine_similarity`
(src/embedding_service.py lines 136-146), with float arithmetic idealised as
real arithmetic: return 0 when either norm is zero, else the normalised dot
product. -/
noncomputable def cosine_similarity (vec1 vec2 : List ℝ) : ℝ :=
  if normList vec1 = 0 ∨ normList vec2 = 0 then 0
  else dotList vec1 vec2 / (normList vec1 * normList vec2)

/-! ### Orchestrator (src/agents/orchestrator.py) -/

/-- One record of the in-memory conversation log
(src/agents/orchestrator.py lines 123-128); `datetime.now().isoformat()` is
abstracted to an opaque tick passed by the caller. -/
structure ConvRecord where
  query : String
  answer : String
  agent : String
  timestamp : Nat
deriving DecidableEq

/-- A specialized agent as the orchestrator sees it: its `execute` behaviour
(an external LLM call that either returns an answer string or raises,
modelled as `Except`), and its internal chat history, cleared by
`BaseFinancialAgent.reset` (src/agents/base_agent.py lines 103-106). -/
structure Agent where
  handler : String → Option String → Except String String
  history : List String

/-- Model of `agent.reset()`: clear the agent's internal history. -/
def resetAgent (a : Agent) : Agent :=
  { a with history := [] }

/-- Orchestrator state: the `self.agents` registry (a dict in registration
order) and the `self.conversation_context` log
(src/agents/orchestrator.py lines 52-61). -/
structure Orchestrator where
  agents : List (String × Agent)
  conversation_context : List ConvRecord

/-- The result dict of `execute_query`, restricted to the fields the claims
speak about (`processing_time_seconds` is wall-clock time and not
modelled). -/
structure QueryResult where
  answer : String
  agent_used : String
  success : Bool
deriving DecidableEq

/-- Shallow embedding of `AgentOrchestrator.execute_query`
(src/agents/orchestrator.py lines 63-140).  With routing, the query is
routed by `route_query`; a missing handler returns a failure result without
touching the log (the early `return` at lines 90-94), a handler exception
lands in the `except` branch (lines 133-140) which also returns before the
log append, and only the successful path reaches the append at
lines 123-128.  Without routing the document agent is dispatched
unconditionally (here: the `"document_analysis"` registry entry). -/
def execute_query (st : Orchestrator) (query : String) (ctx : Option String)
    (use_routing : Bool) (now : Nat) : QueryResult × Orchestrator :=
  if use_routing then
    match List.lookup (route_query query) st.agents with
    | none =>
      ({ answer := "Error: Agent '" ++ route_query query ++ "' not found",
         agent_used := "error", success := false }, st)
    | some a =>
      match a.handler query ctx with
      | Except.error e =>
        ({ answer := "Error processing query: " ++ e, agent_used := "error",
           success := false }, st)
      | Except.ok ans =>
        ({ answer := ans, agent_used := route_query query, success := true },
         { st with conversation_context := st.conversation_context ++
             [{ query := query, answer := ans, agent := route_query query,
                timestamp := now }] })
  else
    match List.lookup "document_analysis" st.agents with
    | none =>
      ({ answer := "Error processing query: document agent missing",
         agent_used := "error", success := false }, st)
    | some a =>
      match a.handler query ctx with
      | Except.error e =>
        ({ answer := "Error processing query: " ++ e, agent_used := "error",
           success := false }, st)
      | Except.ok ans =>
        ({ answer := ans, agent_used := "document_analysis", success := true },
         { st with conversation_context := st.conversation_context ++
             [{ query := query, answer := ans, agent := "document_analysis",
                timestamp := now }] })

/-- Shallow embedding of `AgentOrchestrator.reset_conversation`
(src/agents/orchestrator.py lines 189-194): clear the log and reset every
registered agent. -/
def reset_conversation (st : Orchestrator) : Orchestrator :=
  { agents := st.agents.map (fun p => (p.1, resetAgent p.2)),
    conversation_context := [] }

/-- Worker for Python `str.title()`: uppercase a letter that follows a
non-letter, lowercase a letter that follows a letter. -/
def pyTitleGo : Bool → List Char → List Char
  | _, [] => []
  | prevAlpha, c :: rest =>
    (if c.isAlpha then (if prevAlpha then c.toLower else c.toUpper) else c) ::
      pyTitleGo c.isAlpha rest

/-- Model of Python `str.title()` on ASCII strings. -/
def pyTitle (s : String) : String :=
  ⟨pyTitleGo false s.data⟩

/-- Model of `name.replace('_', ' ')`: a single-character replacement is a
character-wise map. -/
def pyReplaceUnderscore (s : String) : String :=
  ⟨s.data.map (fun c => if c = '_' then ' ' else c)⟩

/-- The section header text `name.replace('_', ' ').title()`
(src/agents/orchestrator.py line 174). -/
def formatAgentName (n : String) : String :=
  pyTitle (pyReplaceUnderscore n)

/-- The string stored in `responses[agent_name]`: the handler's answer, or
the inline `"Error: ..."` string when the handler raises
(src/agents/orchestrator.py lines 165-170). -/
def agentResponse (a : Agent) (q : String) (ctx : Option String) : String :=
  match a.handler q ctx with
  | Except.ok r => r
  | Except.error e => "Error: " ++ e

/-- Python dict assignment `d[k] = v` on a dict modelled as an association
list in insertion order: overwrite in place if the key exists, else append. -/
def dictInsert (l : List (String × String)) (k v : String) : List (String × String) :=
  if l.any (fun p => p.1 == k) then l.map (fun p => if p.1 == k then (k, v) else p)
  else l ++ [(k, v)]

/-- The `responses` dict loop of `execute_multi_agent_query`
(src/agents/orchestrator.py lines 161-170), generalized over the starting
accumulator: names without a registered handler are silently skipped. -/
def multiFold (st : Orchestrator) (q : String) (ctx : Option String)
    (acc : List (String × String)) (names : List String) : List (String × String) :=
  names.foldl
    (fun acc name =>
      match List.lookup name st.agents with
      | none => acc
      | some a => dictInsert acc name (agentResponse a q ctx))
    acc

/-- The final `responses` dict of `execute_multi_agent_query`. -/
def multiAgentResponses (st : Orchestrator) (q : String) (names : List String)
    (ctx : Option String) : List (String × String) :=
  multiFold st q ctx [] names

/-- The result dict of `execute_multi_agent_query`
(src/agents/orchestrator.py lines 178-183). -/
structure MultiResult where
  answer : String
  agents_used : List String
  success : Bool
  multi_agent : Bool
deriving DecidableEq

/-- Shallow embedding of `AgentOrchestrator.execute_multi_agent_query`
(src/agents/orchestrator.py lines 142-183): run every requested registered
handler, join the responses with per-agent headers, and return
`success=True` unconditionally. -/
def execute_multi_agent_query (st : Orchestrator) (q : String)
    (agent_names : List String) (ctx : Option String) : MultiResult :=
  { answer := String.intercalate "\n\n"
      ((multiAgentResponses st q agent_names ctx).map
        (fun p => "**" ++ formatAgentName p.1 ++ ":**\n" ++ p.2)),
    agents_used := (multiAgentResponses st q agent_names ctx).map (fun p => p.1),
    success := true,
    multi_agent := true }

/-- Agent whose `execute` returns normally. -/
def okAgent : Agent :=
  { handler := fun _ _ => Except.ok "fine", history := ["hi"] }

/-- Agent whose `execute` raises. -/
def errAgent : Agent :=
  { handler := fun _ _ => Except.error "boom", history := [] }

/-- Orchestrator with a well-behaved document agent. -/
def sampleOrch : Orchestrator :=
  { agents := [("document_analysis", okAgent)], conversation_context := [] }

/-- Orchestrator whose document agent raises. -/
def errOrch : Orchestrator :=
  { agents := [("document_analysis", errAgent)], conversation_context := [] }

/-! ### Theorems: query router claims -/

/-- C1 (counterexample): on the query `"debt trend"` the maximum score is
attained by both `financial_metrics` and `trend_analysis` (score 1) and not
by `document_analysis` (score 0), yet `route_query` does not return the
designated default `document_analysis`. -/
theorem route_query_tie_cex :
    keywordScore (pyLower "debt trend".data) documentAnalysisKeywords = 0 ∧
    keywordScore (pyLower "debt trend".data) financialMetricsKeywords = 1 ∧
    keywordScore (pyLower "debt trend".data) trendAnalysisKeywords = 1 ∧
    route_query "debt trend" ≠ "document_analysis" := by decide

/-- C1 (amended): if every agent scores zero, `route_query` returns the
default `document_analysis`; but a tie for a nonzero maximum is broken by
registration order, so a query scored equally by `financial_metrics` and
`trend_analysis` and strictly lower by `document_analysis` is routed to
`financial_metrics`, the first registered agent attaining the maximum. -/
theorem route_query_tie_break (q : String) :
    (keywordScore (pyLower q.data) documentAnalysisKeywords = 0 ∧
     keywordScore (pyLower q.data) financialMetricsKeywords = 0 ∧
     keywordScore (pyLower q.data) trendAnalysisKeywords = 0 →
       route_query q = "document_analysis") ∧
    (keywordScore (pyLower q.data) documentAnalysisKeywords <
       keywordScore (pyLower q.data) financialMetricsKeywords ∧
     keywordScore (pyLower q.data) financialMetricsKeywords =
       keywordScore (pyLower q.data) trendAnalysisKeywords →
       route_query q = "financial_metrics") := by
  set d := keywordScore (pyLower q.data) documentAnalysisKeywords with hd
  set f := keywordScore (pyLower q.data) financialMetricsKeywords with hf
  set t := keywordScore (pyLower q.data) trendAnalysisKeywords with ht
  constructor
  · rintro ⟨h1, h2, h3⟩
    simp only [route_query, routeScores, agent_capabilities, List.map_cons, List.map_nil,
      pyMaxFirst, List.foldl_cons, List.foldl_nil, ← hd, ← hf, ← ht, h1, h2, h3]
    simp
  · rintro ⟨h1, h2⟩
    simp only [route_query, routeScores, agent_capabilities, List.map_cons, List.map_nil,
      pyMaxFirst, List.foldl_cons, List.foldl_nil, ← hd, ← hf, ← ht]
    split_ifs <;> simp_all

/-- C1 (witness): the amended tie-break behaviour at the concrete queries
`"debt trend"` (nonzero tie between `financial_metrics` and
`trend_analysis`) and `"hello"` (all scores zero). -/
theorem route_query_tie_break_witness :
    route_query "debt trend" = "financial_metrics" ∧
    route_query "hello" = "document_analysis" :=
  ⟨(route_query_tie_break "debt trend").2 (by decide),
   (route_query_tie_break "hello").1 (by decide)⟩

/-- C2 (counterexample): on the query `"What is the ROE ratio?"` the
`financial_metrics` score is not 2: only `"ratio"` matches, because the
keyword `"ROE"` is stored upper-case and compared against the lowercased
query. -/
theorem roe_ratio_score_cex :
    ¬ keywordScore (pyLower "What is the ROE ratio?".data) financialMetricsKeywords = 2 := by
  decide

/-- C2 (amended): on the query `"What is the ROE ratio?"` the
`financial_metrics` agent scores 1 (only `"ratio"` matches; the upper-case
stored keyword `"ROE"` never matches the lowercased query), every other
agent scores 0, and the query is routed to `financial_metrics`. -/
theorem roe_ratio_query_scores :
    keywordScore (pyLower "What is the ROE ratio?".data) financialMetricsKeywords = 1 ∧
    keywordScore (pyLower "What is the ROE ratio?".data) documentAnalysisKeywords = 0 ∧
    keywordScore (pyLower "What is the ROE ratio?".data) trendAnalysisKeywords = 0 ∧
    route_query "What is the ROE ratio?" = "financial_metrics" := by decide

/-! ### Theorems: chunker support lemmas -/

theorem pyStrip_eq_nil_iff (l : List Char) :
    pyStrip l = [] ↔ ∀ c ∈ l, isPySpace c := by
  unfold pyStrip
  rw [List.reverse_eq_nil_iff, List.dropWhile_eq_nil_iff]
  simp only [List.mem_reverse]
  constructor
  · intro h c hc
    have hsplit := List.takeWhile_append_dropWhile isPySpace l
    rw [← hsplit] at hc
    rcases List.mem_append.mp hc with h1 | h2
    · exact List.mem_takeWhile_imp h1
    · exact h c h2
  · intro h c hc
    exact h c ((List.dropWhile_sublist isPySpace).mem hc)

theorem pyStrip_append_left_ne_nil (x l : List Char) (h : pyStrip l ≠ []) :
    pyStrip (x ++ l) ≠ [] := by
  intro hx
  apply h
  rw [pyStrip_eq_nil_iff] at hx ⊢
  exact fun c hc => hx c (List.mem_append_right x hc)

theorem pyStrip_append_right_ne_nil (l x : List Char) (h : pyStrip l ≠ []) :
    pyStrip (l ++ x) ≠ [] := by
  intro hx
  apply h
  rw [pyStrip_eq_nil_iff] at hx ⊢
  exact fun c hc => hx c (List.mem_append_left x hc)

theorem splitParasGo_no_sep (acc l : List Char) (h : ¬ (['\n', '\n'] <:+: l)) :
    splitParasGo acc l = [acc.reverse ++ l] := by
  induction acc, l using splitParasGo.induct with
  | case1 acc => simp [splitParasGo]
  | case2 acc c => simp [splitParasGo]
  | case3 acc c1 c2 rest hsep ih =>
    exact absurd ⟨[], rest, by simp [hsep.1, hsep.2]⟩ h
  | case4 acc c1 c2 rest hsep ih =>
    rw [splitParasGo, if_neg hsep, ih ?_]
    · simp
    · intro hi
      obtain ⟨s, t, hst⟩ := hi
      exact h ⟨c1 :: s, t, by simp [← hst]⟩

theorem splitParasGo_allspace (acc l : List Char)
    (h : ∀ p ∈ splitParasGo acc l, ∀ c ∈ p, isPySpace c) :
    (∀ c ∈ acc, isPySpace c) ∧ (∀ c ∈ l, isPySpace c) := by
  induction acc, l using splitParasGo.induct with
  | case1 acc =>
    have := h acc.reverse (by simp [splitParasGo])
    simp only [List.mem_reverse] at this
    exact ⟨this, by simp⟩
  | case2 acc c =>
    have := h (c :: acc).reverse (by simp [splitParasGo])
    simp only [List.mem_reverse, List.mem_cons] at this
    refine ⟨fun x hx => this x (Or.inr hx), fun x hx => ?_⟩
    rcases List.mem_singleton.mp hx with rfl
    exact this x (Or.inl rfl)
  | case3 acc c1 c2 rest hsep ih =>
    have hrec : ∀ p ∈ splitParasGo [] rest, ∀ c ∈ p, isPySpace c := by
      intro p hp
      exact h p (by rw [splitParasGo, if_pos hsep]; exact List.mem_cons_of_mem _ hp)
    have hacc : ∀ c ∈ acc, isPySpace c := by
      intro c hc
      exact h acc.reverse (by rw [splitParasGo, if_pos hsep]; exact List.mem_cons_self _ _) c
        (by simpa using hc)
    obtain ⟨-, hrest⟩ := ih hrec
    refine ⟨hacc, fun c hc => ?_⟩
    rcases List.mem_cons.mp hc with rfl | hc2
    · simp [hsep.1, isPySpace]
    rcases List.mem_cons.mp hc2 with rfl | hc3
    · simp [hsep.2, isPySpace]
    · exact hrest c hc3
  | case4 acc c1 c2 rest hsep ih =>
    have hrec : ∀ p ∈ splitParasGo (c1 :: acc) (c2 :: rest), ∀ c ∈ p, isPySpace c := by
      intro p hp
      exact h p (by rwa [splitParasGo, if_neg hsep])
    obtain ⟨hacc, hrest⟩ := ih hrec
    refine ⟨fun c hc => hacc c (List.mem_cons_of_mem c1 hc), fun c hc => ?_⟩
    rcases List.mem_cons.mp hc with rfl | hc2
    · exact hacc c (List.mem_cons_self _ _)
    · exact hrest c hc2

theorem isEmpty_false_iff {α : Type} {l : List α} : l.isEmpty = false ↔ l ≠ [] := by
  cases l <;> simp

theorem filtered_paras_ne_nil (text : List Char) (h : pyStrip text ≠ []) :
    (splitParas text).filter (fun p => !(pyStrip p).isEmpty) ≠ [] := by
  intro hnil
  apply h
  rw [pyStrip_eq_nil_iff]
  have hall : ∀ p ∈ splitParas text, ∀ c ∈ p, isPySpace c := by
    intro p hp
    have hpred := List.filter_eq_nil_iff.mp hnil p hp
    simp only [Bool.not_eq_true, Bool.not_eq_false'] at hpred
    exact (pyStrip_eq_nil_iff p).mp (List.isEmpty_iff.mp hpred)
  exact (splitParasGo_allspace [] text hall).2

/-! ### Theorems: chunker claims -/

/-- C7 (counterexample): the non-empty single-paragraph input `"abcdefg"`
with `chunk_size = 3` is returned as one oversized chunk, not as the
fixed-size slices `["abc", "def", "g"]` the claim predicts. -/
theorem chunk_text_no_slicing_cex :
    chunk_text 3 1 "abcdefg".data = ["abcdefg".data] ∧
    chunk_text 3 1 "abcdefg".data ≠ pySlices 3 "abcdefg".data ∧
    ("abcdefg".data).length > 3 := by decide

/-- C7 (amended): for every non-empty, non-whitespace-only text containing
no occurrence of `"\n\n"`, `chunk_text` does NOT fall back to fixed-size
slicing: the fallback fires only when the filtered paragraph list is empty,
which cannot happen for such a text, so the whole text is returned as the
single (stripped, possibly oversized) chunk `[text.strip()]` for every
`chunk_size` and `overlap`. -/
theorem chunk_text_single_paragraph (cs o : Nat) (text : List Char)
    (h1 : pyStrip text ≠ []) (h2 : ¬ (['\n', '\n'] <:+: text)) :
    chunk_text cs o text = [pyStrip text] := by
  have hs : splitParas text = [text] := by
    unfold splitParas
    rw [splitParasGo_no_sep [] text h2]
    simp
  have hfilter : (splitParas text).filter (fun p => !(pyStrip p).isEmpty) = [text] := by
    rw [hs]
    simp [List.filter, isEmpty_false_iff.mpr h1]
  have hstep : chunkStep cs o ([], []) text = ([], text) := by
    unfold chunkStep
    simp
  unfold chunk_text
  rw [if_neg h1, hfilter]
  simp only [List.isEmpty_cons, Bool.false_eq_true, if_false, List.foldl_cons, List.foldl_nil,
    hstep]
  simp [h1]

/-- C7 (witness): the amended single-chunk behaviour at the concrete
oversized single paragraph `"abcdefg"` with `chunk_size = 3`. -/
theorem chunk_text_single_paragraph_witness :
    chunk_text 3 1 "abcdefg".data = [pyStrip "abcdefg".data] :=
  chunk_text_single_paragraph 3 1 "abcdefg".data (by decide) (by decide)

/-- C6 (counterexample): with `chunk_size = 5`, `overlap = 3 > 0` and input
`"aaa\n\nbbb"`, the paragraph-accumulation path emits the two chunks
`["aaa", "bbb"]`, but the second chunk does not begin with the last
`min(3, 3) = 3` characters of the first: the source seeds an overlap only
when `len(current_chunk) > overlap`, and `"aaa"` has length `3 ≤ 3`, so the
overlap seeded is empty. -/
theorem chunk_text_overlap_cex :
    chunk_text 5 3 "aaa\n\nbbb".data = ["aaa".data, "bbb".data] ∧
    ¬ (pyTakeLast (min 3 "aaa".data.length) "aaa".data <+: "bbb".data) := by
  decide

theorem chain'_concat_mono {α : Type} {R : α → α → Prop} {l : List α} {b b' : α}
    (h : List.Chain' R (l ++ [b])) (hb : ∀ a, R a b → R a b') :
    List.Chain' R (l ++ [b']) := by
  rw [List.chain'_append] at h ⊢
  obtain ⟨h1, -, h3⟩ := h
  refine ⟨h1, List.chain'_singleton b', fun x hx y hy => ?_⟩
  simp only [List.head?_cons, Option.mem_def, Option.some.injEq] at hy
  subst hy
  exact hb x (h3 x hx b (by simp))

theorem chunkStep_inv (cs o : Nat) (st : List (List Char) × List Char) (para : List Char)
    (hp : pyStrip para ≠ [])
    (h : ∃ accums : List (List Char), st.1 = accums.map pyStrip ∧
      ((st.2 = [] ∧ accums = []) ∨
       (pyStrip st.2 ≠ [] ∧
        List.Chain' (fun a b => overlapText o a <+: b) (accums ++ [st.2])))) :
    ∃ accums : List (List Char), (chunkStep cs o st para).1 = accums.map pyStrip ∧
      (((chunkStep cs o st para).2 = [] ∧ accums = []) ∨
       (pyStrip (chunkStep cs o st para).2 ≠ [] ∧
        List.Chain' (fun a b => overlapText o a <+: b)
          (accums ++ [(chunkStep cs o st para).2]))) := by
  obtain ⟨A, hA1, hA2⟩ := h
  rcases Decidable.em (st.2 ≠ [] ∧ st.2.length + para.length + 2 > cs) with hcond | hcond
  · -- boundary branch: emit the current buffer, seed the next with the overlap
    rcases hA2 with ⟨heq, -⟩ | ⟨hstrip, hchain⟩
    · exact absurd heq hcond.1
    have hred : chunkStep cs o st para = (st.1 ++ [pyStrip st.2], overlapText o st.2 ++ para) := by
      unfold chunkStep
      rw [if_pos hcond]
      simp [hstrip]
    rw [hred]
    refine ⟨A ++ [st.2], by simp [hA1], Or.inr ⟨?_, ?_⟩⟩
    · exact pyStrip_append_left_ne_nil _ _ hp
    · refine List.chain'_append.mpr ⟨hchain, List.chain'_singleton _, fun x hx y hy => ?_⟩
      rw [List.getLast?_concat] at hx
      simp only [Option.mem_def, Option.some.injEq] at hx
      simp only [List.head?_cons, Option.mem_def, Option.some.injEq] at hy
      subst hx; subst hy
      exact List.prefix_append _ _
  · -- accumulate branch: grow the current buffer at its end
    by_cases hnil : st.2 = []
    · have hred : chunkStep cs o st para = (st.1, para) := by
        unfold chunkStep
        rw [if_neg hcond, if_pos hnil]
      rcases hA2 with ⟨-, hAnil⟩ | ⟨hstrip, -⟩
      · rw [hred]
        refine ⟨[], by simpa [hAnil] using hA1, Or.inr ⟨hp, ?_⟩⟩
        simp [List.chain'_singleton]
      · exact absurd hstrip (by simp [hnil, pyStrip])
    · have hred : chunkStep cs o st para = (st.1, st.2 ++ ['\n', '\n'] ++ para) := by
        unfold chunkStep
        rw [if_neg hcond, if_neg hnil]
      rcases hA2 with ⟨heq, -⟩ | ⟨hstrip, hchain⟩
      · exact absurd heq hnil
      rw [hred]
      refine ⟨A, hA1, Or.inr ⟨?_, ?_⟩⟩
      · have hassoc : st.2 ++ ['\n', '\n'] ++ para = st.2 ++ (['\n', '\n'] ++ para) := by
          simp [List.append_assoc]
        rw [hassoc]
        exact pyStrip_append_right_ne_nil _ _ hstrip
      · refine chain'_concat_mono hchain (fun a ha => ha.trans ?_)
        show st.2 <+: st.2 ++ ['\n', '\n'] ++ para
        rw [List.append_assoc]
        exact List.prefix_append _ _

theorem foldl_chunkStep_inv (cs o : Nat) (paras : List (List Char))
    (hp : ∀ p ∈ paras, pyStrip p ≠ []) (st : List (List Char) × List Char)
    (h : ∃ accums : List (List Char), st.1 = accums.map pyStrip ∧
      ((st.2 = [] ∧ accums = []) ∨
       (pyStrip st.2 ≠ [] ∧
        List.Chain' (fun a b => overlapText o a <+: b) (accums ++ [st.2])))) :
    ∃ accums : List (List Char),
      (paras.foldl (chunkStep cs o) st).1 = accums.map pyStrip ∧
      (((paras.foldl (chunkStep cs o) st).2 = [] ∧ accums = []) ∨
       (pyStrip (paras.foldl (chunkStep cs o) st).2 ≠ [] ∧
        List.Chain' (fun a b => overlapText o a <+: b)
          (accums ++ [(paras.foldl (chunkStep cs o) st).2]))) := by
  induction paras generalizing st with
  | nil => simpa using h
  | cons p rest ih =>
    rw [List.foldl_cons]
    exact ih (fun q hq => hp q (List.mem_cons_of_mem p hq)) (chunkStep cs o st p)
      (chunkStep_inv cs o st p (hp p (List.mem_cons_self _ _)) h)

/-- C6 (amended): the overlap invariant holds on the pre-strip accumulated
buffers, not on the stored chunk texts, and with an empty overlap when the
emitted buffer has length at most `overlap`: for every input there is a
sequence of accumulated buffers whose whitespace-strips are exactly the
emitted chunks, in which each buffer begins with
`current_chunk[-overlap:] if len(current_chunk) > overlap else ""` of its
predecessor — the property claimed on chunk texts fails both when a chunk is
no longer than `overlap` (empty overlap seeded) and when stripping removes
leading whitespace from the seeded buffer. -/
theorem chunk_text_overlap_chain (cs o : Nat) (text : List Char) :
    ∃ accums : List (List Char),
      chunk_text cs o text = accums.map pyStrip ∧
      List.Chain' (fun a b => overlapText o a <+: b) accums := by
  unfold chunk_text
  split_ifs with h0
  · exact ⟨[], rfl, List.chain'_nil⟩
  · have hnil := filtered_paras_ne_nil text h0
    have hisEmpty : ((splitParas text).filter (fun p => !(pyStrip p).isEmpty)).isEmpty = false :=
      isEmpty_false_iff.mpr hnil
    simp only [hisEmpty, Bool.false_eq_true, if_false]
    have hmem : ∀ p ∈ (splitParas text).filter (fun p => !(pyStrip p).isEmpty),
        pyStrip p ≠ [] := by
      intro p hp
      have hb := (List.mem_filter.mp hp).2
      simp only [Bool.not_eq_true'] at hb
      exact isEmpty_false_iff.mp hb
    obtain ⟨A, hA1, hA2⟩ := foldl_chunkStep_inv cs o _ hmem ([], [])
      ⟨[], rfl, Or.inl ⟨rfl, rfl⟩⟩
    set final := ((splitParas text).filter (fun p => !(pyStrip p).isEmpty)).foldl
      (chunkStep cs o) ([], []) with hfinal
    split_ifs with h2
    · rcases hA2 with ⟨heq, -⟩ | ⟨-, hchain⟩
      · exact absurd (by simp [heq, pyStrip]) h2
      · exact ⟨A ++ [final.2], by simp [hA1], hchain⟩
    · refine ⟨A, hA1, ?_⟩
      rcases hA2 with ⟨-, hAnil⟩ | ⟨-, hchain⟩
      · simp [hAnil]
      · exact (List.chain'_append.mp hchain).1

/-! ### Theorems: cosine similarity claims -/

theorem dotList_comm (u : List ℝ) : ∀ v, dotList u v = dotList v u := by
  induction u with
  | nil => intro v; cases v <;> simp [dotList]
  | cons a u ih =>
    intro v
    cases v with
    | nil => simp [dotList]
    | cons b v =>
      have h := ih v
      simp only [dotList] at h ⊢
      simp [List.zipWith_cons_cons, h, mul_comm]

theorem dotList_self (v : List ℝ) : dotList v v = sumSq v := by
  induction v with
  | nil => simp [dotList, sumSq]
  | cons a v ih =>
    simp only [dotList, sumSq] at ih ⊢
    simp [List.zipWith_cons_cons, ih, pow_two]

theorem sumSq_nonneg (v : List ℝ) : 0 ≤ sumSq v := by
  unfold sumSq
  apply List.sum_nonneg
  intro x hx
  obtain ⟨y, -, rfl⟩ := List.mem_map.mp hx
  exact sq_nonneg y

theorem sumSq_pos (v : List ℝ) : (∃ x ∈ v, x ≠ 0) → 0 < sumSq v := by
  induction v with
  | nil => rintro ⟨x, hx, -⟩; simp at hx
  | cons a v ih =>
    rintro ⟨x, hx, hne⟩
    have e : sumSq (a :: v) = a ^ 2 + sumSq v := by simp [sumSq]
    rw [e]
    rcases List.mem_cons.mp hx with rfl | hx2
    · exact add_pos_of_pos_of_nonneg
        (lt_of_le_of_ne (sq_nonneg x) (Ne.symm (pow_ne_zero 2 hne))) (sumSq_nonneg v)
    · exact add_pos_of_nonneg_of_pos (sq_nonneg a) (ih ⟨x, hx2, hne⟩)

theorem dotList_sq_le (u : List ℝ) : ∀ v, (dotList u v) ^ 2 ≤ sumSq u * sumSq v := by
  induction u with
  | nil => intro v; simp [dotList, sumSq]
  | cons a u ih =>
    intro v
    cases v with
    | nil => simp [dotList, sumSq]
    | cons b v =>
      have hU := sumSq_nonneg u
      have hV := sumSq_nonneg v
      have hD := ih v
      have e1 : dotList (a :: u) (b :: v) = a * b + dotList u v := by simp [dotList]
      have e2 : sumSq (a :: u) = a ^ 2 + sumSq u := by simp [sumSq]
      have e3 : sumSq (b :: v) = b ^ 2 + sumSq v := by simp [sumSq]
      rw [e1, e2, e3]
      nlinarith [sq_nonneg (a * b - dotList u v), sq_nonneg (a * b + dotList u v),
        sq_nonneg (a ^ 2 * sumSq v - b ^ 2 * sumSq u), mul_nonneg hU hV,
        sq_nonneg (a * sumSq v - b * sumSq u), sq_nonneg a, sq_nonneg b,
        sq_nonneg (dotList u v), mul_nonneg (sq_nonneg a) hV, mul_nonneg (sq_nonneg b) hU,
        sq_nonneg (a * b)]

theorem abs_dotList_le (u v : List ℝ) : |dotList u v| ≤ normList u * normList v := by
  have h2 : (dotList u v) ^ 2 ≤ (normList u * normList v) ^ 2 := by
    rw [mul_pow]
    simp only [normList]
    rw [Real.sq_sqrt (sumSq_nonneg u), Real.sq_sqrt (sumSq_nonneg v)]
    exact dotList_sq_le u v
  calc |dotList u v| = Real.sqrt ((dotList u v) ^ 2) := (Real.sqrt_sq_eq_abs _).symm
    _ ≤ Real.sqrt ((normList u * normList v) ^ 2) := Real.sqrt_le_sqrt h2
    _ = |normList u * normList v| := Real.sqrt_sq_eq_abs _
    _ = normList u * normList v :=
        abs_of_nonneg (mul_nonneg (Real.sqrt_nonneg _) (Real.sqrt_nonneg _))

/-- C4 (confirmed): the cosine-similarity function is symmetric, bounded in
`[-1, 1]` for equal-dimension vectors, equal to 1 on any non-zero vector
paired with itself, and exactly 0 (not NaN, not an exception — the function
is total) whenever either argument has zero norm. -/
theorem cosine_similarity_props :
    (∀ u v : List ℝ, cosine_similarity u v = cosine_similarity v u) ∧
    (∀ u v : List ℝ, u.length = v.length →
       -1 ≤ cosine_similarity u v ∧ cosine_similarity u v ≤ 1) ∧
    (∀ v : List ℝ, (∃ x ∈ v, x ≠ 0) → cosine_similarity v v = 1) ∧
    (∀ u v : List ℝ, normList u = 0 ∨ normList v = 0 → cosine_similarity u v = 0) := by
  refine ⟨?_, ?_, ?_, ?_⟩
  · intro u v
    unfold cosine_similarity
    by_cases h : normList u = 0 ∨ normList v = 0
    · rw [if_pos h, if_pos h.symm]
    · rw [if_neg h, if_neg (fun hc => h hc.symm)]
      rw [dotList_comm, mul_comm]
  · intro u v _
    unfold cosine_similarity
    by_cases h : normList u = 0 ∨ normList v = 0
    · rw [if_pos h]; norm_num
    · rw [if_neg h]
      push_neg at h
      have hu : 0 < normList u := lt_of_le_of_ne (Real.sqrt_nonneg _) (Ne.symm h.1)
      have hv : 0 < normList v := lt_of_le_of_ne (Real.sqrt_nonneg _) (Ne.symm h.2)
      have hpos : 0 < normList u * normList v := mul_pos hu hv
      have h1 : |dotList u v / (normList u * normList v)| ≤ 1 := by
        rw [abs_div, abs_of_pos hpos]
        exact (div_le_one hpos).mpr (abs_dotList_le u v)
      exact abs_le.mp h1
  · intro v hv
    have hpos : 0 < sumSq v := sumSq_pos v hv
    have hnz : normList v ≠ 0 := by
      rw [normList, Ne, Real.sqrt_eq_zero (le_of_lt hpos)]
      exact ne_of_gt hpos
    unfold cosine_similarity
    rw [if_neg (by simp [hnz])]
    rw [dotList_self]
    simp only [normList]
    rw [Real.mul_self_sqrt (le_of_lt hpos)]
    exact div_self (ne_of_gt hpos)
  · intro u v h
    unfold cosine_similarity
    rw [if_pos h]

/-- C4 (witness): bounds at `[1,0]`/`[0,1]`, self-similarity 1 at `[3]`, and
zero-norm result 0 at `[0]`/`[5]`. -/
theorem cosine_similarity_props_witness :
    (-1 ≤ cosine_similarity [1, 0] [0, 1] ∧ cosine_similarity [1, 0] [0, 1] ≤ 1) ∧
    cosine_similarity [3] [3] = 1 ∧
    cosine_similarity [0] [5] = 0 :=
  ⟨cosine_similarity_props.2.1 [1, 0] [0, 1] rfl,
   cosine_similarity_props.2.2.1 [3] ⟨3, by simp, by norm_num⟩,
   cosine_similarity_props.2.2.2 [0] [5] (Or.inl (by simp [normList, sumSq]))⟩

/-! ### Theorems: semantic search claims -/

theorem filter_orderedInsert (p : SearchResult → Bool) (x : SearchResult)
    (hcomp : ∀ y, p x = true → p y = true → simGE x y) :
    ∀ l, (List.orderedInsert simGE x l).filter p =
      if p x then x :: l.filter p else l.filter p := by
  intro l
  induction l with
  | nil => cases hpx : p x <;> simp [List.orderedInsert, List.filter, hpx]
  | cons b l ih =>
    by_cases hxb : simGE x b
    · rw [List.orderedInsert, if_pos hxb]
      cases hpx : p x <;> simp [List.filter_cons, hpx]
    · rw [List.orderedInsert, if_neg hxb]
      cases hpb : p b with
      | true =>
        cases hpx : p x with
        | true => exact absurd (hcomp b hpx hpb) hxb
        | false => simp [List.filter_cons, hpb, hpx, ih]
      | false =>
        cases hpx : p x with
        | true => simp [List.filter_cons, hpb, hpx, ih]
        | false => simp [List.filter_cons, hpb, hpx, ih]

theorem filter_insertionSort (p : SearchResult → Bool)
    (hcomp : ∀ x y, p x = true → p y = true → simGE x y) :
    ∀ l, (List.insertionSort simGE l).filter p = l.filter p := by
  intro l
  induction l with
  | nil => rfl
  | cons x l ih =>
    simp only [List.insertionSort]
    rw [filter_orderedInsert p x (hcomp x) _]
    cases hpx : p x <;> simp [List.filter_cons, hpx, ih]

theorem mem_semanticCandidates {cosSim : List ℚ → List ℚ → ℚ} {q : List ℚ} {db : DB}
    {rids : Option (List Nat)} {τ : ℚ} {r : SearchResult}
    (h : r ∈ semanticCandidates cosSim q db rids τ) : τ ≤ r.similarity := by
  unfold semanticCandidates at h
  obtain ⟨cr, -, hf⟩ := List.mem_filterMap.mp h
  cases hemb : cr.1.embedding with
  | none => rw [hemb] at hf; simp at hf
  | some emb =>
    rw [hemb] at hf
    simp only at hf
    split_ifs at hf with hτ
    cases Option.some.inj hf
    exact hτ

/-- C3 (confirmed): every result returned by `semantic_search` has
similarity at least `similarity_threshold`; the returned sequence is sorted
by similarity descending, with equal-similarity results kept in original
storage order (restricting the output to any one similarity value yields a
sublist of the pre-sort candidate list, which is in storage order); and at
most `top_k` results are returned.  This holds for every similarity
function, query embedding, stored chunk set, threshold and `top_k`. -/
theorem semantic_search_contract (cosSim : List ℚ → List ℚ → ℚ) (q : List ℚ) (db : DB)
    (k : Nat) (τ : ℚ) (rids : Option (List Nat)) :
    (∀ r ∈ semantic_search cosSim q db k τ rids, τ ≤ r.similarity) ∧
    List.Sorted simGE (semantic_search cosSim q db k τ rids) ∧
    (semantic_search cosSim q db k τ rids).length ≤ k ∧
    (∀ s : ℚ, ((semantic_search cosSim q db k τ rids).filter
        (fun r => decide (r.similarity = s))).Sublist
      (semanticCandidates cosSim q db rids τ)) := by
  refine ⟨?_, ?_, ?_, ?_⟩
  · intro r hr
    exact mem_semanticCandidates
      ((List.perm_insertionSort simGE _).subset ((List.take_sublist _ _).subset hr))
  · exact List.Pairwise.sublist (List.take_sublist _ _) (List.sorted_insertionSort simGE _)
  · exact List.length_take_le _ _
  · intro s
    have h1 : ((semantic_search cosSim q db k τ rids).filter
        (fun r => decide (r.similarity = s))).Sublist
        ((List.insertionSort simGE (semanticCandidates cosSim q db rids τ)).filter
          (fun r => decide (r.similarity = s))) :=
      (List.take_sublist _ _).filter _
    rw [filter_insertionSort _ ?_ _] at h1
    · exact h1.trans (List.filter_sublist _)
    · intro x y hx hy
      simp only [decide_eq_true_eq] at hx hy
      exact le_of_eq (hy.trans hx.symm)

/-- C3 (witness): the contract applied to the one-chunk sample database
under the constant-1 similarity function, threshold 0 and `top_k` 5. -/
theorem semantic_search_contract_witness : (0 : ℚ) ≤ sampleResult.similarity :=
  (semantic_search_contract (fun _ _ => 1) [1, 0] sampleDB 5 0 none).1 sampleResult (by decide)

/-! ### Theorems: embedding store claims -/

/-- C5 (counterexample): a persistence error at the report-update commit
leaves the chunk row committed while the report is untouched — the raised
error coexists with a persisted chunk row and a report that still reads
`processing` with `chunks_created = 0`, contradicting all-or-nothing
atomicity. -/
theorem store_embeddings_two_commit_cex :
    (store_embeddings FailMode.failSecondCommit emptyDB 1
        [⟨"hello", 0, none, none⟩] [[1]] "azure" "m").1 = Except.error "storage error" ∧
    (store_embeddings FailMode.failSecondCommit emptyDB 1
        [⟨"hello", 0, none, none⟩] [[1]] "azure" "m").2.chunks.length = 1 ∧
    (store_embeddings FailMode.failSecondCommit emptyDB 1
        [⟨"hello", 0, none, none⟩] [[1]] "azure" "m").2.reports = [sampleReport] ∧
    sampleReport.processing_status = "processing" ∧
    sampleReport.chunks_created = 0 :=
  ⟨rfl, rfl, rfl, rfl, rfl⟩

/-- C5 (amended): `store_embeddings` is NOT a single atomic batch: the chunk
inserts and the report updates are committed by two separate
`session.commit()` calls.  An error at the first commit leaves the database
completely unchanged, but an error while committing the report update rolls
back only that second transaction: the chunk rows from the already-completed
first commit remain persisted while the report keeps all its old field
values — an intermediate persisted state with chunk rows but no report
update is observable. -/
theorem store_embeddings_not_atomic (db : DB) (rid : Nat) (chunks : List StoreChunkInput)
    (embeddings : List (List ℚ)) (prov mdl : String)
    (hrep : (db.reports.find? (fun r => r.id == rid)).isSome) :
    store_embeddings FailMode.failFirstCommit db rid chunks embeddings prov mdl =
      (Except.error "storage error", db) ∧
    (store_embeddings FailMode.failSecondCommit db rid chunks embeddings prov mdl).1 =
      Except.error "storage error" ∧
    (store_embeddings FailMode.failSecondCommit db rid chunks embeddings prov mdl).2.chunks =
      db.chunks ++ (chunks.zip embeddings).map (mkChunkRow rid mdl) ∧
    (store_embeddings FailMode.failSecondCommit db rid chunks embeddings prov mdl).2.reports =
      db.reports := by
  obtain ⟨r, hr⟩ := Option.isSome_iff_exists.mp hrep
  have h2 : store_embeddings FailMode.failSecondCommit db rid chunks embeddings prov mdl =
      (Except.error "storage error",
       { db with chunks := db.chunks ++ (chunks.zip embeddings).map (mkChunkRow rid mdl) }) := by
    unfold store_embeddings
    rw [if_neg (by decide), hr]
    rfl
  refine ⟨?_, by rw [h2], by rw [h2], by rw [h2]⟩
  unfold store_embeddings
  rw [if_pos rfl]


/-- C5 (witness): the amended two-commit behaviour at the concrete one-report
database: after a second-commit failure the report table is unchanged. -/
theorem store_embeddings_not_atomic_witness :
    (store_embeddings FailMode.failSecondCommit emptyDB 1
        [⟨"hello", 0, none, none⟩] [[1]] "azure" "m").2.reports = emptyDB.reports :=
  (store_embeddings_not_atomic emptyDB 1 [⟨"hello", 0, none, none⟩] [[1]] "azure" "m"
    (by decide)).2.2.2

/-- C9 (confirmed): with mismatched `chunks`/`embeddings` lengths,
`store_embeddings` raises nothing and reports nothing: `zip` silently
truncates, exactly `min(len(chunks), len(embeddings))` rows are persisted,
that count is returned, and it is also written to the matching report's
`chunks_created`. -/
theorem store_embeddings_length_mismatch (db : DB) (rid : Nat)
    (chunks : List StoreChunkInput) (embeddings : List (List ℚ)) (prov mdl : String)
    (r : ReportRow) (_hlen : chunks.length ≠ embeddings.length)
    (hr : db.reports.find? (fun x => x.id == rid) = some r) :
    (store_embeddings FailMode.noFail db rid chunks embeddings prov mdl).1 =
      Except.ok (min chunks.length embeddings.length) ∧
    (store_embeddings FailMode.noFail db rid chunks embeddings prov mdl).2.chunks =
      db.chunks ++ (chunks.zip embeddings).map (mkChunkRow rid mdl) ∧
    (chunks.zip embeddings).length = min chunks.length embeddings.length ∧
    (∀ rr ∈ (store_embeddings FailMode.noFail db rid chunks embeddings prov mdl).2.reports,
      rr.id = rid → rr.chunks_created = min chunks.length embeddings.length) := by
  have hred : store_embeddings FailMode.noFail db rid chunks embeddings prov mdl =
      (Except.ok ((chunks.zip embeddings).map (mkChunkRow rid mdl)).length,
       { db with
         chunks := db.chunks ++ (chunks.zip embeddings).map (mkChunkRow rid mdl),
         reports := db.reports.map
           (updateReport ((chunks.zip embeddings).map (mkChunkRow rid mdl)).length
             prov mdl rid) }) := by
    unfold store_embeddings
    rw [if_neg (by decide), hr]
    rfl
  have hcount : ((chunks.zip embeddings).map (mkChunkRow rid mdl)).length =
      min chunks.length embeddings.length := by
    rw [List.length_map, List.length_zip]
  refine ⟨by rw [hred, hcount], by rw [hred], by rw [List.length_zip], ?_⟩
  intro rr hrr hid
  rw [hred] at hrr
  obtain ⟨r0, -, rfl⟩ := List.mem_map.mp hrr
  unfold updateReport
  unfold updateReport at hid
  by_cases h0 : r0.id = rid
  · rw [if_pos h0]
    simp [hcount]
  · rw [if_neg h0] at hid
    exact absurd hid h0

/-- C9 (witness): two chunk dicts paired with a single embedding store
exactly one row and return 1. -/
theorem store_embeddings_length_mismatch_witness :
    (store_embeddings FailMode.noFail emptyDB 1
        [⟨"a", 0, none, none⟩, ⟨"b", 1, none, none⟩] [[1]] "azure" "m").1 =
      Except.ok (min 2 1) :=
  (store_embeddings_length_mismatch emptyDB 1
    [⟨"a", 0, none, none⟩, ⟨"b", 1, none, none⟩] [[1]] "azure" "m" sampleReport
    (by decide) (by decide)).1

/-! ### Theorems: orchestrator claims -/

/-- C8 (counterexample): a call whose routed handler raises returns a
failure result and appends NOTHING to the conversation log — not the one
record per call the claim demands. -/
theorem execute_query_no_log_on_error_cex :
    (execute_query errOrch "find report" none true 0).1.success = false ∧
    (execute_query errOrch "find report" none true 0).2.conversation_context.length = 0 ∧
    ¬ (execute_query errOrch "find report" none true 0).2.conversation_context.length =
        errOrch.conversation_context.length + 1 :=
  ⟨rfl, rfl, by decide⟩

/-- C8 (amended): only a successful `execute_query` call appends a record —
exactly one, of the form `{query, answer, agent, timestamp}` — to the
in-memory conversation log; a call returning a failure result (missing
handler, or an exception from the routed handler) leaves the log unchanged.
`reset_conversation` empties the log and forwards a reset to every
registered handler. -/
theorem execute_query_log (st : Orchestrator) (q : String) (ctx : Option String)
    (ur : Bool) (now : Nat) :
    ((execute_query st q ctx ur now).1.success = true →
      (execute_query st q ctx ur now).2.conversation_context =
        st.conversation_context ++
          [{ query := q, answer := (execute_query st q ctx ur now).1.answer,
             agent := (execute_query st q ctx ur now).1.agent_used, timestamp := now }]) ∧
    ((execute_query st q ctx ur now).1.success = false →
      (execute_query st q ctx ur now).2.conversation_context = st.conversation_context) ∧
    (reset_conversation st).conversation_context = [] ∧
    (reset_conversation st).agents = st.agents.map (fun p => (p.1, resetAgent p.2)) := by
  have hmain : ((execute_query st q ctx ur now).1.success = true ∧
      (execute_query st q ctx ur now).2.conversation_context =
        st.conversation_context ++
          [{ query := q, answer := (execute_query st q ctx ur now).1.answer,
             agent := (execute_query st q ctx ur now).1.agent_used, timestamp := now }]) ∨
      ((execute_query st q ctx ur now).1.success = false ∧
       (execute_query st q ctx ur now).2.conversation_context = st.conversation_context) := by
    cases ur with
    | false =>
      rcases hl : List.lookup "document_analysis" st.agents with _ | a
      · right
        constructor <;> simp [execute_query, hl]
      · rcases hh : a.handler q ctx with e | ans
        · right
          constructor <;> simp [execute_query, hl, hh]
        · left
          constructor <;> simp [execute_query, hl, hh]
    | true =>
      rcases hl : List.lookup (route_query q) st.agents with _ | a
      · right
        constructor <;> simp [execute_query, hl]
      · rcases hh : a.handler q ctx with e | ans
        · right
          constructor <;> simp [execute_query, hl, hh]
        · left
          constructor <;> simp [execute_query, hl, hh]
  refine ⟨?_, ?_, rfl, rfl⟩
  · intro hs
    rcases hmain with ⟨-, h⟩ | ⟨hf, -⟩
    · exact h
    · rw [hs] at hf
      exact absurd hf (by simp)
  · intro hs
    rcases hmain with ⟨ht, -⟩ | ⟨-, h⟩
    · rw [hs] at ht
      exact absurd ht (by simp)
    · exact h

/-- C8 (witness): the amended logging behaviour at a successful call on the
sample orchestrator. -/
theorem execute_query_log_witness :
    (execute_query sampleOrch "find report" none true 0).2.conversation_context =
      sampleOrch.conversation_context ++
        [{ query := "find report",
           answer := (execute_query sampleOrch "find report" none true 0).1.answer,
           agent := (execute_query sampleOrch "find report" none true 0).1.agent_used,
           timestamp := 0 }] :=
  (execute_query_log sampleOrch "find report" none true 0).1 rfl

theorem lookup_mapReplace (l : List (String × String)) (k v : String)
    (h : l.any (fun p => p.1 == k) = true) :
    List.lookup k (l.map (fun p => if p.1 == k then (k, v) else p)) = some v := by
  induction l with
  | nil => simp at h
  | cons p l ih =>
    obtain ⟨pk, pv⟩ := p
    rw [List.any_cons] at h
    cases hk : (pk == k) with
    | true =>
      simp only [List.map_cons]
      rw [if_pos hk]
      simp [List.lookup]
    | false =>
      rw [hk, Bool.false_or] at h
      have hks : (k == pk) = false := by
        rw [beq_eq_false_iff_ne] at hk ⊢
        exact Ne.symm hk
      simp only [List.map_cons]
      rw [if_neg (by rw [hk]; simp)]
      simp [List.lookup, hks]
      simpa using ih h

theorem lookup_append_single (l : List (String × String)) (k v : String)
    (h : l.any (fun p => p.1 == k) = false) :
    List.lookup k (l ++ [(k, v)]) = some v := by
  induction l with
  | nil => simp [List.lookup]
  | cons p l ih =>
    obtain ⟨pk, pv⟩ := p
    rw [List.any_cons] at h
    have h1 : (pk == k) = false := by
      cases hx : (pk == k)
      · rfl
      · rw [hx] at h; simp at h
    have h2 : l.any (fun p => p.1 == k) = false := by
      rw [h1, Bool.false_or] at h
      exact h
    have hks : (k == pk) = false := by
      rw [beq_eq_false_iff_ne] at h1 ⊢
      exact Ne.symm h1
    simp [List.lookup, hks, ih h2]

theorem lookup_dictInsert_self (l : List (String × String)) (k v : String) :
    List.lookup k (dictInsert l k v) = some v := by
  unfold dictInsert
  by_cases h : l.any (fun p => p.1 == k) = true
  · rw [if_pos h]
    exact lookup_mapReplace l k v h
  · rw [if_neg h]
    rw [Bool.not_eq_true] at h
    exact lookup_append_single l k v h

theorem lookup_mapReplace_other (l : List (String × String)) (k v k' : String)
    (hne : k' ≠ k) :
    List.lookup k' (l.map (fun p => if p.1 == k then (k, v) else p)) =
      List.lookup k' l := by
  induction l with
  | nil => rfl
  | cons p l ih =>
    obtain ⟨pk, pv⟩ := p
    cases hk : (pk == k) with
    | true =>
      have hpk : pk = k := eq_of_beq hk
      have hkk : (k' == k) = false := beq_eq_false_iff_ne.mpr hne
      have hks : (k' == pk) = false := beq_eq_false_iff_ne.mpr (hpk ▸ hne)
      simp only [List.map_cons]
      rw [if_pos hk]
      simp [List.lookup, hkk, hks]
      simpa using ih
    | false =>
      simp only [List.map_cons]
      rw [if_neg (by rw [hk]; simp)]
      cases hx : (k' == pk) with
      | true => simp [List.lookup, hx]
      | false =>
        simp [List.lookup, hx]
        simpa using ih

theorem lookup_append_single_other (l : List (String × String)) (k v k' : String)
    (hne : k' ≠ k) :
    List.lookup k' (l ++ [(k, v)]) = List.lookup k' l := by
  induction l with
  | nil => simp [List.lookup, beq_eq_false_iff_ne.mpr hne]
  | cons p l ih =>
    obtain ⟨pk, pv⟩ := p
    cases hx : (k' == pk) <;> simp [List.lookup, hx, ih]

theorem lookup_dictInsert_other (l : List (String × String)) (k v k' : String)
    (hne : k' ≠ k) :
    List.lookup k' (dictInsert l k v) = List.lookup k' l := by
  unfold dictInsert
  split_ifs with h
  · exact lookup_mapReplace_other l k v k' hne
  · exact lookup_append_single_other l k v k' hne

theorem lookup_isSome_iff_mem_keys (l : List (String × String)) (k : String) :
    (List.lookup k l).isSome = true ↔ k ∈ l.map (fun p => p.1) := by
  induction l with
  | nil => simp [List.lookup]
  | cons p l ih =>
    obtain ⟨pk, pv⟩ := p
    cases hx : (k == pk) with
    | true =>
      have hk : k = pk := eq_of_beq hx
      simp [List.lookup, hx, hk]
    | false =>
      have hk : k ≠ pk := ne_of_beq_false hx
      simp [List.lookup, hx, hk, ih]

theorem multiFold_cons (st : Orchestrator) (q : String) (ctx : Option String)
    (acc : List (String × String)) (m : String) (rest : List String) :
    multiFold st q ctx acc (m :: rest) =
      multiFold st q ctx
        (match List.lookup m st.agents with
         | none => acc
         | some a => dictInsert acc m (agentResponse a q ctx)) rest := rfl

theorem multiFold_lookup_none (st : Orchestrator) (q : String) (ctx : Option String)
    (n : String) (hn : List.lookup n st.agents = none) :
    ∀ (names : List String) (acc : List (String × String)),
      List.lookup n (multiFold st q ctx acc names) = List.lookup n acc := by
  intro names
  induction names with
  | nil => intro acc; rfl
  | cons m rest ih =>
    intro acc
    rw [multiFold_cons, ih]
    cases hm : List.lookup m st.agents with
    | none => rfl
    | some am =>
      by_cases hnm : n = m
      · subst hnm
        rw [hn] at hm
        exact absurd hm (by simp)
      · exact lookup_dictInsert_other acc m (agentResponse am q ctx) n hnm

theorem multiFold_lookup_some (st : Orchestrator) (q : String) (ctx : Option String)
    (n : String) (a : Agent) (ha : List.lookup n st.agents = some a) :
    ∀ (names : List String) (acc : List (String × String)),
      List.lookup n (multiFold st q ctx acc names) =
        if n ∈ names then some (agentResponse a q ctx) else List.lookup n acc := by
  intro names
  induction names with
  | nil => intro acc; simp [multiFold]
  | cons m rest ih =>
    intro acc
    rw [multiFold_cons, ih]
    by_cases hnm : n = m
    · subst hnm
      rw [ha]
      by_cases hmem : n ∈ rest
      · simp [hmem, List.mem_cons]
      · simp [hmem, List.mem_cons, lookup_dictInsert_self]
    · have hstep : List.lookup n
          (match List.lookup m st.agents with
           | none => acc
           | some a => dictInsert acc m (agentResponse a q ctx)) = List.lookup n acc := by
        cases List.lookup m st.agents with
        | none => rfl
        | some am => exact lookup_dictInsert_other acc m (agentResponse am q ctx) n hnm
      rw [hstep]
      simp [List.mem_cons, hnm]

/-- C10 (confirmed): `execute_multi_agent_query` always returns
`success = True` (and `multi_agent = True`) for every query, agent-name
list and orchestrator state; an agent name with no registered handler is
silently skipped — it gets no response slot (hence no section of the
combined answer) and does not appear in `agents_used`; `agents_used`
contains only requested, registered names; and a handler that raises
contributes the inline string `"Error: ..."` as its response slot while
`success` stays `True`. -/
theorem execute_multi_agent_query_contract (st : Orchestrator) (q : String)
    (names : List String) (ctx : Option String) :
    (execute_multi_agent_query st q names ctx).success = true ∧
    (execute_multi_agent_query st q names ctx).multi_agent = true ∧
    (∀ n, List.lookup n st.agents = none →
      List.lookup n (multiAgentResponses st q names ctx) = none ∧
      n ∉ (execute_multi_agent_query st q names ctx).agents_used) ∧
    (∀ n ∈ (execute_multi_agent_query st q names ctx).agents_used,
      n ∈ names ∧ (List.lookup n st.agents).isSome = true) ∧
    (∀ n a e, List.lookup n st.agents = some a → n ∈ names →
      a.handler q ctx = Except.error e →
      List.lookup n (multiAgentResponses st q names ctx) = some ("Error: " ++ e)) := by
  refine ⟨rfl, rfl, ?_, ?_, ?_⟩
  · intro n hn
    have h1 : List.lookup n (multiAgentResponses st q names ctx) = none := by
      unfold multiAgentResponses
      rw [multiFold_lookup_none st q ctx n hn names []]
      rfl
    refine ⟨h1, ?_⟩
    intro hmem
    have h2 : (List.lookup n (multiAgentResponses st q names ctx)).isSome = true :=
      (lookup_isSome_iff_mem_keys _ n).mpr hmem
    rw [h1] at h2
    simp at h2
  · intro n hmem
    have h2 : (List.lookup n (multiAgentResponses st q names ctx)).isSome = true :=
      (lookup_isSome_iff_mem_keys _ n).mpr hmem
    constructor
    · by_contra hnin
      cases ha : List.lookup n st.agents with
      | none =>
        unfold multiAgentResponses at h2
        rw [multiFold_lookup_none st q ctx n ha names []] at h2
        simp [List.lookup] at h2
      | some a =>
        unfold multiAgentResponses at h2
        rw [multiFold_lookup_some st q ctx n a ha names [], if_neg hnin] at h2
        simp [List.lookup] at h2
    · cases ha : List.lookup n st.agents with
      | none =>
        unfold multiAgentResponses at h2
        rw [multiFold_lookup_none st q ctx n ha names []] at h2
        simp [List.lookup] at h2
      | some a => rfl
  · intro n a e ha hmem hh
    unfold multiAgentResponses
    rw [multiFold_lookup_some st q ctx n a ha names [], if_pos hmem]
    unfold agentResponse
    rw [hh]

/-- C10 (witness): on an orchestrator whose only agent raises, requesting
that agent together with an unregistered name yields an inline error slot
for the former and no trace of the latter. -/
theorem execute_multi_agent_query_contract_witness :
    List.lookup "document_analysis"
        (multiAgentResponses errOrch "q" ["document_analysis", "nope"] none) =
      some ("Error: " ++ "boom") ∧
    "nope" ∉
      (execute_multi_agent_query errOrch "q" ["document_analysis", "nope"] none).agents_used :=
  ⟨(execute_multi_agent_query_contract errOrch "q" ["document_analysis", "nope"] none).2.2.2.2
      "document_analysis" errAgent "boom" rfl (by simp) rfl,
   ((execute_multi_agent_query_contract errOrch "q" ["document_analysis", "nope"] none).2.2.1
      "nope" rfl).2⟩
